import Mathlib

set_option linter.unusedSectionVars false

/-!
Verification development for `dms_tools2/diffsel.py`.

The source manipulates pandas data frames.  The embedding below represents
a data frame row-wise:

* a wide count table (`sel`, `mock`, `err` inputs) is a list of `CountRow`s,
  one per site; the per-character count columns are a total function from
  the alphabet type `A` to `ℚ` (the column set being exactly
  `{site, wildtype} ∪ alphabet` is structural in this representation);
* the melted per-site data used in the numeric core (lines 60–122 of
  `diffsel.py`) is a `SiteCounts` record: the wildtype character together
  with the `nsel` and `nmock` columns restricted to one site;
* exact rationals stand for the float columns, and the final `log2`
  (line 122) is taken in `ℝ`; a value that the code reports as `NaN`
  is `Option.none`;
* the float pipeline is modelled twice: once in exact field arithmetic
  (`nselP` … `mutdiffselR`), which coincides with the program on every
  site whose two sample totals are positive, and once over the `Flt`
  type (`nselPF` … `mutdiffselF`), which carries the `+inf`/`NaN`
  values that float division by a zero per-site total produces and is
  the faithful semantics at degenerate sites as well;
* the cells that line 82 compares against `0` keep their Python types:
  `CellVal` distinguishes the numeric columns from the string-valued
  `wildtype`/`mutation` columns, whose ordering comparison against an
  integer is a `TypeError` in Python 3.

Counts and derived quantities are stated over a general linear ordered
field `K` so that the same definitions serve both the executable `ℚ`
instance (used by the table-level pipeline and by decidable witnesses)
and the `ℝ` instance (used where `Real.logb` appears).
-/

namespace Diffsel

variable {A : Type} [DecidableEq A] {K : Type} [LinearOrderedField K]

/-- One row of a wide count table: a site, its wildtype character, and one
count column per alphabet character (`site`, `wildtype`, and the
`countcharacters` columns of `sel` / `mock` / `err`). -/
structure CountRow (A : Type) where
  site : ℤ
  wildtype : A
  counts : A → ℚ

/-- Melted counts of the two samples at one site: the `wildtype` value
together with the `nsel` and `nmock` columns of the melted frame `m`
restricted to that site (lines 60–76 of `diffsel.py`). -/
structure SiteCounts (A : Type) (K : Type) where
  wildtype : A
  nsel : A → K
  nmock : A → K

/-- Per-site total of a count column: `groupby('site').transform('sum')['n']`
(line 70 of `diffsel.py`); the `N` column is constant across the rows of a
site, so it is a single value here. -/
def Ntot (alpha : List A) (n : A → K) : K :=
  (alpha.map n).sum

/-- Pseudocounted selected count `nselP` (lines 106–107):
`nsel + pseudocount * max 1 (Nsel / Nmock)`, rendered in exact field
arithmetic.  This rendering is faithful exactly on sites where the mock
total is positive; at a zero mock total the program's float division gives
`+inf` or `NaN` instead, which the `Flt` layer below (`nselPF`) models.
Theorems stated over this definition either carry positivity of the totals
as a hypothesis or are insensitive to the degenerate sites. -/
def nselP (alpha : List A) (s : SiteCounts A K) (p : K) (c : A) : K :=
  s.nsel c + p * max 1 (Ntot alpha s.nsel / Ntot alpha s.nmock)

/-- Pseudocounted mock count `nmockP` (lines 108–109):
`nmock + pseudocount * max 1 (Nmock / Nsel)`, in exact field arithmetic —
faithful on sites with a positive selected total, with the same proviso as
`nselP`; the float path is `nmockPF`. -/
def nmockP (alpha : List A) (s : SiteCounts A K) (p : K) (c : A) : K :=
  s.nmock c + p * max 1 (Ntot alpha s.nmock / Ntot alpha s.nsel)

/-- Enrichment ratio of a mutation `c` relative to the wildtype row of its
site (lines 117–118): `(nselP / nselPwt) / (nmockP / nmockPwt)`, where the
`wt` columns come from the merge with the `mutation == wildtype` rows
(lines 112–114). -/
def enrichment (alpha : List A) (s : SiteCounts A K) (p : K) (c : A) : K :=
  (nselP alpha s p c / nselP alpha s p s.wildtype) /
    (nmockP alpha s p c / nmockP alpha s p s.wildtype)

/-- Masking predicate (negation of the `.where` condition of lines 119–120):
the row is reported as `NaN` when the mutation is the wildtype, or when both
raw counts fall below `mincount`. -/
def masked (s : SiteCounts A K) (mc : K) (c : A) : Prop :=
  c = s.wildtype ∨ (s.nsel c < mc ∧ s.nmock c < mc)

instance (s : SiteCounts A K) (mc : K) (c : A) : Decidable (masked s mc c) := by
  unfold masked; infer_instance

/-- Enrichment with the masking of lines 119–121 applied, and with the
domain of `log2` made explicit: `none` stands for the `NaN` that the code
propagates, both for masked rows and for a non-positive enrichment (whose
`log2` the spec declares undefined).  This is the computable kernel of the
`mutdiffsel` column; `mutdiffsel` itself is `log2` of this value. -/
def mutEnrichment (alpha : List A) (s : SiteCounts A K) (p mc : K) (c : A) :
    Option K :=
  if masked s mc c then none
  else if enrichment alpha s p c ≤ 0 then none
  else some (enrichment alpha s p c)

/-- The `mutdiffsel` column (line 122): `log2` of the masked enrichment,
with `none` standing for `NaN`. -/
noncomputable def mutdiffselR (alpha : List A) (s : SiteCounts A ℝ)
    (p mc : ℝ) (c : A) : Option ℝ :=
  (mutEnrichment alpha s p mc c).map (Real.logb 2)

/-- The scaled pseudocount added to a count column is strictly positive
whenever the pseudocount is. -/
theorem nselP_pos (alpha : List A) (s : SiteCounts A K) {p : K} (hp : 0 < p)
    (hsel : ∀ a, 0 ≤ s.nsel a) (c : A) : 0 < nselP alpha s p c := by
  have h1 : p * 1 ≤ p * max 1 (Ntot alpha s.nsel / Ntot alpha s.nmock) :=
    mul_le_mul_of_nonneg_left (le_max_left _ _) hp.le
  have := hsel c
  unfold nselP
  nlinarith

/-- Mock analogue of `nselP_pos`. -/
theorem nmockP_pos (alpha : List A) (s : SiteCounts A K) {p : K} (hp : 0 < p)
    (hmock : ∀ a, 0 ≤ s.nmock a) (c : A) : 0 < nmockP alpha s p c := by
  have h1 : p * 1 ≤ p * max 1 (Ntot alpha s.nmock / Ntot alpha s.nsel) :=
    mul_le_mul_of_nonneg_left (le_max_left _ _) hp.le
  have := hmock c
  unfold nmockP
  nlinarith

/-- With a positive pseudocount and non-negative counts, every enrichment
ratio is strictly positive. -/
theorem enrichment_pos (alpha : List A) (s : SiteCounts A K) {p : K}
    (hp : 0 < p) (hsel : ∀ a, 0 ≤ s.nsel a) (hmock : ∀ a, 0 ≤ s.nmock a)
    (c : A) : 0 < enrichment alpha s p c :=
  div_pos
    (div_pos (nselP_pos alpha s hp hsel c) (nselP_pos alpha s hp hsel _))
    (div_pos (nmockP_pos alpha s hp hmock c) (nmockP_pos alpha s hp hmock _))

/-- A per-site total of non-negative counts is non-negative. -/
theorem Ntot_nonneg (alpha : List A) {n : A → K} (hn : ∀ a, 0 ≤ n a) :
    0 ≤ Ntot alpha n := by
  refine List.sum_nonneg ?_
  intro x hx
  rcases List.mem_map.mp hx with ⟨a, _, rfl⟩
  exact hn a

/-- Value of a float cell in the pipeline of lines 105–122: a finite value
(held exactly), positive infinity, or `NaN`.  The counts are non-negative,
no subtraction occurs before the `log2`, and no overflow is modelled, so
negative infinity cannot arise in this stretch of the pipeline. -/
inductive Flt
  | nan
  | inf
  | fin (q : ℚ)

/-- IEEE addition on `{finite, +inf, NaN}`: `NaN` propagates and `+inf`
absorbs. -/
def Flt.add : Flt → Flt → Flt
  | .nan, _ => .nan
  | _, .nan => .nan
  | .inf, _ => .inf
  | _, .inf => .inf
  | .fin q, .fin r => .fin (q + r)

/-- IEEE multiplication on `{finite, +inf, NaN}` for the non-negative
operands of this pipeline: `NaN` propagates, `inf * 0 = NaN`, and `inf`
times a positive finite value is `inf`. -/
def Flt.mul : Flt → Flt → Flt
  | .nan, _ => .nan
  | _, .nan => .nan
  | .inf, .inf => .inf
  | .inf, .fin q => if q = 0 then .nan else .inf
  | .fin q, .inf => if q = 0 then .nan else .inf
  | .fin q, .fin r => .fin (q * r)

/-- IEEE division on `{finite, +inf, NaN}` for the non-negative operands of
this pipeline: `NaN` propagates, `0 / 0` and `inf / inf` are `NaN`, a
positive finite value over zero is `+inf`, a finite value over `+inf` is
zero, and `+inf` over a finite value is `+inf`. -/
def Flt.div : Flt → Flt → Flt
  | .nan, _ => .nan
  | _, .nan => .nan
  | .inf, .inf => .nan
  | .inf, .fin _ => .inf
  | .fin _, .inf => .fin 0
  | .fin q, .fin r =>
      if r = 0 then (if q = 0 then .nan else .inf) else .fin (q / r)

/-- `numpy.maximum` on `{finite, +inf, NaN}`: it propagates `NaN`, and
`+inf` dominates. -/
def Flt.maxF : Flt → Flt → Flt
  | .nan, _ => .nan
  | _, .nan => .nan
  | .inf, _ => .inf
  | _, .inf => .inf
  | .fin q, .fin r => .fin (max q r)

/-- Float-semantics rendering of `nselP` (lines 106–107): the count columns
hold finite values and the scale factor `max 1 (Nsel / Nmock)` is computed
in float arithmetic, where a zero mock total makes the quotient `+inf` (or
`NaN` when the selected total is zero too). -/
def nselPF (alpha : List A) (s : SiteCounts A ℚ) (p : ℚ) (c : A) : Flt :=
  Flt.add (.fin (s.nsel c))
    (Flt.mul (.fin p)
      (Flt.maxF (.fin 1)
        (Flt.div (.fin (Ntot alpha s.nsel)) (.fin (Ntot alpha s.nmock)))))

/-- Float-semantics rendering of `nmockP` (lines 108–109). -/
def nmockPF (alpha : List A) (s : SiteCounts A ℚ) (p : ℚ) (c : A) : Flt :=
  Flt.add (.fin (s.nmock c))
    (Flt.mul (.fin p)
      (Flt.maxF (.fin 1)
        (Flt.div (.fin (Ntot alpha s.nmock)) (.fin (Ntot alpha s.nsel)))))

/-- Float-semantics enrichment (lines 117–118). -/
def enrichmentF (alpha : List A) (s : SiteCounts A ℚ) (p : ℚ) (c : A) :
    Flt :=
  Flt.div
    (Flt.div (nselPF alpha s p c) (nselPF alpha s p s.wildtype))
    (Flt.div (nmockPF alpha s p c) (nmockPF alpha s p s.wildtype))

/-- Float-semantics `mutdiffsel` (lines 119–122): the `.where` mask inserts
`NaN`, and `log2` yields a finite real only on a positive finite
enrichment — it is `NaN` on `NaN`, `+inf` on `+inf`, and `-inf` or `NaN` on
a non-positive value.  `none` stands for every non-finite outcome. -/
noncomputable def mutdiffselF (alpha : List A) (s : SiteCounts A ℚ)
    (p mc : ℚ) (c : A) : Option ℝ :=
  if masked s mc c then none
  else
    match enrichmentF alpha s p c with
    | .fin e => if e ≤ 0 then none else some (Real.logb 2 (e : ℝ))
    | _ => none

/-- On a site whose totals are both positive, the float pipeline stays
finite and agrees with the exact-field rendering. -/
theorem nselPF_fin (alpha : List A) (s : SiteCounts A ℚ) (p : ℚ) (c : A)
    (hNm : Ntot alpha s.nmock ≠ 0) :
    nselPF alpha s p c = .fin (nselP alpha s p c) := by
  simp [nselPF, nselP, Flt.div, Flt.maxF, Flt.mul, Flt.add, hNm]

/-- Mock analogue of `nselPF_fin`. -/
theorem nmockPF_fin (alpha : List A) (s : SiteCounts A ℚ) (p : ℚ) (c : A)
    (hNs : Ntot alpha s.nsel ≠ 0) :
    nmockPF alpha s p c = .fin (nmockP alpha s p c) := by
  simp [nmockPF, nmockP, Flt.div, Flt.maxF, Flt.mul, Flt.add, hNs]

/-- On a site with positive totals, the float enrichment is the finite
exact enrichment. -/
theorem enrichmentF_fin (alpha : List A) (s : SiteCounts A ℚ) {p : ℚ}
    (hp : 0 < p) (hsel : ∀ a, 0 ≤ s.nsel a) (hmock : ∀ a, 0 ≤ s.nmock a)
    (hNs : 0 < Ntot alpha s.nsel) (hNm : 0 < Ntot alpha s.nmock) (c : A) :
    enrichmentF alpha s p c = .fin (enrichment alpha s p c) := by
  have h2 := nselP_pos alpha s hp hsel s.wildtype
  have h3 := nmockP_pos alpha s hp hmock c
  have h4 := nmockP_pos alpha s hp hmock s.wildtype
  unfold enrichmentF enrichment
  rw [nselPF_fin alpha s p c hNm.ne', nselPF_fin alpha s p s.wildtype hNm.ne',
    nmockPF_fin alpha s p c hNs.ne', nmockPF_fin alpha s p s.wildtype hNs.ne']
  simp [Flt.div, h2.ne', h4.ne', (div_pos h3 h4).ne']

/-- On a site where either sample's total is zero, the float enrichment is
`NaN` at every mutation: the division `Nsel / Nmock` (or its mirror) is
`+inf` or `NaN`, which propagates through the pseudocounted counts into
`inf / inf = NaN` or directly into `NaN`. -/
theorem enrichmentF_nan_of_zero_total (alpha : List A) (s : SiteCounts A ℚ)
    {p : ℚ} (hp : 0 < p) (hsel : ∀ a, 0 ≤ s.nsel a)
    (h0 : Ntot alpha s.nsel = 0 ∨ Ntot alpha s.nmock = 0) (c : A) :
    enrichmentF alpha s p c = .nan := by
  rcases eq_or_ne (Ntot alpha s.nsel) 0 with hs | hs <;>
    rcases eq_or_ne (Ntot alpha s.nmock) 0 with hm | hm
  · -- both totals zero: the scale factor is 0 / 0 = NaN
    have ha : ∀ x, nselPF alpha s p x = .nan := fun x => by
      simp [nselPF, hs, hm, Flt.div, Flt.maxF, Flt.mul, Flt.add]
    unfold enrichmentF
    rw [ha, ha]
    simp [Flt.div]
  · -- selected total zero, mock total positive: nmockP is +inf everywhere
    have hvpos : s.nsel s.wildtype + p ≠ 0 := by
      have := hsel s.wildtype
      nlinarith
    have ha : ∀ x, nselPF alpha s p x = .fin (s.nsel x + p) := fun x => by
      simp [nselPF, hs, hm, Flt.div, Flt.maxF, Flt.mul, Flt.add,
        max_eq_left (by norm_num : (0 : ℚ) ≤ 1)]
    have hb : ∀ x, nmockPF alpha s p x = .inf := fun x => by
      simp [nmockPF, hs, hm, Flt.div, Flt.maxF, Flt.mul, Flt.add, hp.ne']
    unfold enrichmentF
    rw [ha, ha, hb, hb]
    simp [Flt.div, hvpos]
  · -- mock total zero, selected total positive: nselP is +inf everywhere
    have ha : ∀ x, nselPF alpha s p x = .inf := fun x => by
      simp [nselPF, hs, hm, Flt.div, Flt.maxF, Flt.mul, Flt.add, hp.ne']
    unfold enrichmentF
    rw [ha, ha]
    simp [Flt.div]
  · rcases h0 with h0 | h0
    · exact absurd h0 hs
    · exact absurd h0 hm

/-- Concrete valid input refuting C1 as stated: wildtype `A`, selected
counts `(A, C) = (2, 3)`, and an all-zero mock column (non-negative counts,
so schema-valid); the program computes `Nsel / Nmock = inf`, hence
`nselP = inf` and `enrichment = inf / inf = NaN`. -/
def siteZeroMock : SiteCounts Char ℚ :=
  ⟨'A', fun c => if c = 'A' then 2 else 3, fun _ => 0⟩

/-- Counterexample to C1 as stated: at `siteZeroMock` the row of mutation
`C` is not masked (it differs from the wildtype and its selected count
reaches `mincount = 0`), yet `mutdiffsel` is `NaN` there. -/
theorem mutdiffsel_nan_at_zero_total :
    ¬ ('C' = siteZeroMock.wildtype ∨
        (siteZeroMock.nsel 'C' < 0 ∧ siteZeroMock.nmock 'C' < 0)) ∧
      mutdiffselF ['A', 'C'] siteZeroMock 1 0 'C' = none := by
  constructor
  · decide
  · norm_num +decide [mutdiffselF, enrichmentF, nselPF, nmockPF, Ntot,
      siteZeroMock, Flt.div, Flt.maxF, Flt.mul, Flt.add, masked]

/-- C1 amended: for every valid input, `mutdiffsel` is undefined (`NaN`)
exactly at the rows where the mutation equals the wildtype, the rows where
both raw counts lie strictly below `mincount`, and every row of a site
where either sample's per-site total is zero (there the float scale factor
is `+inf` or `NaN` and the `NaN` propagates); at every other row it is a
defined, finite real number and the computation does not raise. -/
theorem mutdiffselF_defined_iff (alpha : List A) (s : SiteCounts A ℚ)
    {p : ℚ} (mc : ℚ) (c : A) (hp : 0 < p)
    (hsel : ∀ a, 0 ≤ s.nsel a) (hmock : ∀ a, 0 ≤ s.nmock a) :
    (mutdiffselF alpha s p mc c).isSome = true ↔
      (¬ (c = s.wildtype ∨ (s.nsel c < mc ∧ s.nmock c < mc))
        ∧ 0 < Ntot alpha s.nsel ∧ 0 < Ntot alpha s.nmock) := by
  show _ ↔ (¬ masked s mc c ∧ _ ∧ _)
  by_cases hm : masked s mc c
  · simp [mutdiffselF, hm]
  · rcases eq_or_lt_of_le (Ntot_nonneg alpha hsel) with hNs | hNs
    · have hnan := enrichmentF_nan_of_zero_total alpha s hp hsel
        (Or.inl hNs.symm) c
      simp [mutdiffselF, hm, hnan, ← hNs]
    · rcases eq_or_lt_of_le (Ntot_nonneg alpha hmock) with hNm | hNm
      · have hnan := enrichmentF_nan_of_zero_total alpha s hp hsel
          (Or.inr hNm.symm) c
        simp [mutdiffselF, hm, hnan, ← hNm]
      · have hfin := enrichmentF_fin alpha s hp hsel hmock hNs hNm c
        have hpos := enrichment_pos alpha s hp hsel hmock c
        simp [mutdiffselF, hm, hfin, hpos.not_le, hNs, hNm]

/-- Concrete site with positive totals used by the amended C1 witness:
wildtype `A`, selected counts `(A, C, G) = (2, 3, 0)`, mock counts all 1. -/
def siteC1Q : SiteCounts Char ℚ :=
  ⟨'A', fun c => if c = 'A' then 2 else if c = 'C' then 3 else 0,
    fun _ => 1⟩

/-- Witness for the amended C1 at `siteC1Q`, pseudocount 1, `mincount = 0`,
mutation `C`. -/
theorem mutdiffselF_defined_iff_witness :
    (mutdiffselF ['A', 'C', 'G'] siteC1Q 1 0 'C').isSome = true ↔
      (¬ ('C' = siteC1Q.wildtype ∨
          (siteC1Q.nsel 'C' < 0 ∧ siteC1Q.nmock 'C' < 0))
        ∧ 0 < Ntot ['A', 'C', 'G'] siteC1Q.nsel
        ∧ 0 < Ntot ['A', 'C', 'G'] siteC1Q.nmock) := by
  refine mutdiffselF_defined_iff ['A', 'C', 'G'] siteC1Q 0 'C'
    one_pos ?_ ?_
  · intro a
    simp only [siteC1Q]
    split
    · norm_num
    · split <;> norm_num
  · intro a
    simp only [siteC1Q]
    norm_num

/-- Concrete site used by the C3 and C4 witnesses: wildtype `A`, selected
counts `(A, C, G) = (2, 3, 0)`, mock counts `(A, C, G) = (1, 1, 1)`. -/
noncomputable def siteC1 : SiteCounts Char ℝ :=
  ⟨'A', fun c => if c = 'A' then 2 else if c = 'C' then 3 else 0,
    fun _ => 1⟩

/-- Swapping the roles of the `sel` and `mock` inputs, i.e. calling
`computeMutDiffSel(mock, sel, ...)` instead of
`computeMutDiffSel(sel, mock, ...)` on the same pair of tables. -/
def swapSamples (s : SiteCounts A K) : SiteCounts A K :=
  ⟨s.wildtype, s.nmock, s.nsel⟩

/-- Swapping the two samples inverts the enrichment ratio. -/
theorem enrichment_swap (alpha : List A) (s : SiteCounts A K) (p : K)
    (c : A) :
    enrichment alpha (swapSamples s) p c = (enrichment alpha s p c)⁻¹ := by
  unfold enrichment swapSamples nselP nmockP Ntot
  rw [inv_div]

/-- C3: for every non-masked row (mutation differs from the wildtype and at
least one raw count reaches `mincount`), swapping the `sel` and `mock`
tables negates `mutdiffsel`. -/
theorem mutdiffsel_swap_neg (alpha : List A) (s : SiteCounts A ℝ)
    {p : ℝ} {mc : ℝ} {c : A} (hp : 0 < p)
    (hsel : ∀ a, 0 ≤ s.nsel a) (hmock : ∀ a, 0 ≤ s.nmock a)
    (hc : c ≠ s.wildtype) (hmc : mc ≤ s.nsel c ∨ mc ≤ s.nmock c) :
    mutdiffselR alpha (swapSamples s) p mc c =
      (mutdiffselR alpha s p mc c).map (fun x => -x) := by
  have he := enrichment_pos alpha s hp hsel hmock c
  have hm : ¬ masked s mc c := by
    rintro (h | ⟨h1, h2⟩)
    · exact hc h
    · rcases hmc with h | h
      · exact absurd h1 (not_lt.mpr h)
      · exact absurd h2 (not_lt.mpr h)
  have hm' : ¬ masked (swapSamples s) mc c := by
    rintro (h | ⟨h1, h2⟩)
    · exact hc h
    · rcases hmc with h | h
      · exact absurd h2 (not_lt.mpr h)
      · exact absurd h1 (not_lt.mpr h)
  unfold mutdiffselR mutEnrichment
  rw [enrichment_swap]
  simp [hm, hm', he.not_le, (inv_pos.mpr he).not_le, Real.logb_inv]

/-- Witness for C3 at the concrete site `siteC1`. -/
theorem mutdiffsel_swap_neg_witness :
    mutdiffselR ['A', 'C', 'G'] (swapSamples siteC1) 1 0 'C' =
      (mutdiffselR ['A', 'C', 'G'] siteC1 1 0 'C').map (fun x => -x) := by
  refine mutdiffsel_swap_neg ['A', 'C', 'G'] siteC1 one_pos ?_ ?_
    (by decide) (Or.inl ?_)
  · intro a
    simp only [siteC1]
    split
    · norm_num
    · split <;> norm_num
  · intro a
    simp only [siteC1]
    norm_num
  · simp only [siteC1]
    split <;> norm_num

/-- Concrete site refuting the pseudocount-monotonicity claim: wildtype
`A`, selected counts `(A, C, G) = (1, 100, 100899)` and mock counts
`(A, C, G) = (1000, 100000, 0)`; both sites totals are `101000`, so the
pseudocount scale factors are `1` for both samples. -/
noncomputable def siteC4 : SiteCounts Char ℝ :=
  ⟨'A', fun c => if c = 'A' then 1 else if c = 'C' then 100 else 100899,
    fun c => if c = 'A' then 1000 else if c = 'C' then 100000 else 0⟩

/-- Enrichment of mutation `C` at `siteC4` with pseudocount `1`. -/
theorem enrichment_siteC4_one :
    enrichment ['A', 'C', 'G'] siteC4 1 'C' = 101101 / 200002 := by
  unfold enrichment nselP nmockP Ntot siteC4
  norm_num +decide [max_self]

/-- Enrichment of mutation `C` at `siteC4` with pseudocount `100`. -/
theorem enrichment_siteC4_hundred :
    enrichment ['A', 'C', 'G'] siteC4 100 'C' = 2200 / 101101 := by
  unfold enrichment nselP nmockP Ntot siteC4
  norm_num +decide [max_self]

/-- Mutation `C` at `siteC4` is not masked for `mincount = 0`. -/
theorem not_masked_siteC4 : ¬ masked siteC4 (0 : ℝ) 'C' := by
  rintro (h | ⟨h1, h2⟩)
  · exact absurd h (by decide)
  · simp only [siteC4] at h1
    norm_num +decide at h1

/-- Counterexample to C4 as stated: at `siteC4` with `mincount = 0`, raising
the pseudocount from `1` to `100` strictly increases the magnitude of
`mutdiffsel` for mutation `C` (from about `0.98` to about `5.52`), so the
magnitude is not monotonically shrinking in the pseudocount. -/
theorem mutdiffsel_pseudocount_not_monotone :
    ¬ (∀ y1 y2 : ℝ,
        mutdiffselR ['A', 'C', 'G'] siteC4 1 0 'C' = some y1 →
        mutdiffselR ['A', 'C', 'G'] siteC4 100 0 'C' = some y2 →
        |y2| ≤ |y1|) := by
  intro h
  have h1 : mutdiffselR ['A', 'C', 'G'] siteC4 1 0 'C' =
      some (Real.logb 2 (101101 / 200002)) := by
    unfold mutdiffselR mutEnrichment
    rw [enrichment_siteC4_one, if_neg not_masked_siteC4,
      if_neg (by norm_num : ¬ ((101101 / 200002 : ℝ) ≤ 0))]
    rfl
  have h2 : mutdiffselR ['A', 'C', 'G'] siteC4 100 0 'C' =
      some (Real.logb 2 (2200 / 101101)) := by
    unfold mutdiffselR mutEnrichment
    rw [enrichment_siteC4_hundred, if_neg not_masked_siteC4,
      if_neg (by norm_num : ¬ ((2200 / 101101 : ℝ) ≤ 0))]
    rfl
  have hle := h _ _ h1 h2
  have hlt : Real.logb 2 (2200 / 101101) < Real.logb 2 (101101 / 200002) :=
    Real.logb_lt_logb one_lt_two (by norm_num) (by norm_num)
  have hneg1 : Real.logb 2 (101101 / 200002) < 0 :=
    Real.logb_neg one_lt_two (by norm_num) (by norm_num)
  rw [abs_of_neg (hlt.trans hneg1), abs_of_neg hneg1] at hle
  linarith

/-- A ratio `(u + p·a) / (v + p·a)` with non-negative offsets and a positive
slope tends to `1` as `p` grows without bound. -/
theorem tendsto_ratio_one {u v a : ℝ} (_hu : 0 ≤ u) (hv : 0 ≤ v)
    (ha : 0 < a) :
    Filter.Tendsto (fun p : ℝ => (u + p * a) / (v + p * a))
      Filter.atTop (nhds 1) := by
  have hden : Filter.Tendsto (fun p : ℝ => v + p * a) Filter.atTop
      Filter.atTop :=
    Filter.tendsto_atTop_add_const_left Filter.atTop v
      (Filter.tendsto_id.atTop_mul_const ha)
  have h0 : Filter.Tendsto (fun p : ℝ => (u - v) / (v + p * a))
      Filter.atTop (nhds 0) :=
    Filter.Tendsto.div_atTop tendsto_const_nhds hden
  have h1 : Filter.Tendsto (fun p : ℝ => 1 + (u - v) / (v + p * a))
      Filter.atTop (nhds 1) := by
    simpa using tendsto_const_nhds.add h0
  refine Filter.Tendsto.congr' ?_ h1
  filter_upwards [Filter.eventually_gt_atTop 0] with p hp
  have hpos : 0 < v + p * a := add_pos_of_nonneg_of_pos hv (mul_pos hp ha)
  field_simp
  ring

/-- Quotients of quotients rearranged into a product. -/
theorem div_div_ratio (x y z w : K) : (x / y) / (z / w) = (x / y) * (w / z) := by
  rw [div_eq_mul_inv (x / y) (z / w), inv_div]

/-- C4 amended: increasing the pseudocount while holding the counts fixed
does not shrink the magnitude of `mutdiffsel` monotonically (see
`mutdiffsel_pseudocount_not_monotone`); what holds, at every non-masked row
of a site whose two sample totals are positive — where the exact-field
rendering agrees with the program's float arithmetic — is shrinkage in the
limit: as the pseudocount grows without bound, `mutdiffsel` tends to `0`,
and for every positive pseudocount the row's value is `log2` of its
enrichment.  The positivity hypotheses confine the statement to the
non-degenerate sites; at a zero total the program's value is `NaN` for
every pseudocount (see `enrichmentF_nan_of_zero_total`). -/
theorem mutdiffsel_tendsto_zero_atTop_pseudocount (alpha : List A)
    (s : SiteCounts A ℝ) (mc : ℝ) (c : A)
    (hsel : ∀ a, 0 ≤ s.nsel a) (hmock : ∀ a, 0 ≤ s.nmock a)
    (_hNs : 0 < Ntot alpha s.nsel) (_hNm : 0 < Ntot alpha s.nmock)
    (hc : c ≠ s.wildtype) (hmc : mc ≤ s.nsel c ∨ mc ≤ s.nmock c) :
    Filter.Tendsto (fun p : ℝ => Real.logb 2 (enrichment alpha s p c))
        Filter.atTop (nhds 0) ∧
      ∀ p : ℝ, 0 < p →
        mutdiffselR alpha s p mc c =
          some (Real.logb 2 (enrichment alpha s p c)) := by
  have hm : ¬ masked s mc c := by
    rintro (h | ⟨h1, h2⟩)
    · exact hc h
    · rcases hmc with h | h
      · exact absurd h1 (not_lt.mpr h)
      · exact absurd h2 (not_lt.mpr h)
  constructor
  · have ha : (0 : ℝ) < max 1 (Ntot alpha s.nsel / Ntot alpha s.nmock) :=
      zero_lt_one.trans_le (le_max_left _ _)
    have hb : (0 : ℝ) < max 1 (Ntot alpha s.nmock / Ntot alpha s.nsel) :=
      zero_lt_one.trans_le (le_max_left _ _)
    have henr : Filter.Tendsto (fun p : ℝ => enrichment alpha s p c)
        Filter.atTop (nhds 1) := by
      have hmul :=
        (tendsto_ratio_one (hsel c) (hsel s.wildtype) ha).mul
          (tendsto_ratio_one (hmock s.wildtype) (hmock c) hb)
      rw [mul_one] at hmul
      refine hmul.congr fun p => ?_
      unfold enrichment nselP nmockP
      rw [div_div_ratio]
    have hlog : Filter.Tendsto Real.log (nhds 1) (nhds 0) := by
      have := (Real.continuousAt_log one_ne_zero).tendsto
      rwa [Real.log_one] at this
    have hcomp := (hlog.comp henr).div_const (Real.log 2)
    rw [zero_div] at hcomp
    refine hcomp.congr fun p => ?_
    simp [Real.logb, Function.comp]
  · intro p hp
    have he := enrichment_pos alpha s hp hsel hmock c
    unfold mutdiffselR mutEnrichment
    rw [if_neg hm, if_neg he.not_le]
    rfl

/-- Witness for the amended C4 at the concrete site `siteC1`. -/
theorem mutdiffsel_tendsto_zero_atTop_pseudocount_witness :
    Filter.Tendsto
        (fun p : ℝ => Real.logb 2 (enrichment ['A', 'C', 'G'] siteC1 p 'C'))
        Filter.atTop (nhds 0) ∧
      ∀ p : ℝ, 0 < p →
        mutdiffselR ['A', 'C', 'G'] siteC1 p 0 'C' =
          some (Real.logb 2 (enrichment ['A', 'C', 'G'] siteC1 p 'C')) := by
  refine mutdiffsel_tendsto_zero_atTop_pseudocount ['A', 'C', 'G'] siteC1 0
    'C' ?_ ?_ ?_ ?_ (by decide) (Or.inl ?_)
  · intro a
    simp only [siteC1]
    split
    · norm_num
    · split <;> norm_num
  · intro a
    simp only [siteC1]
    norm_num
  · norm_num +decide [Ntot, siteC1]
  · norm_num +decide [Ntot, siteC1]
  · simp only [siteC1]
    split <;> norm_num

/-- Per-site data of the joined melted frame as it stands at line 82 of
`diffsel.py` (after the `epsilon` column of line 80 is added): the site,
the wildtype character, and the three samples' count columns; the `Nsel`,
`Nmock`, `Nerr` and `epsilon` columns are derived from these. -/
structure ErrJoinedSite (A : Type) where
  site : ℤ
  wildtype : A
  nsel : A → ℚ
  nmock : A → ℚ
  nerr : A → ℚ

/-- A cell of the joined frame with its Python type: the numeric columns
hold numbers, while the `wildtype` and `mutation` columns hold strings
(character values of the alphabet). -/
inductive CellVal (A : Type)
  | num (q : ℚ)
  | strval (a : A)

/-- Python 3 ordering comparison of one cell against the integer `0`:
defined on a number, but a `TypeError` on a string — Python 3 refuses to
order `str` against `int` (only equality comparisons are allowed across
the two types). -/
def cellGtZero {A : Type} : CellVal A → Except String Bool
  | .num q => .ok (decide (0 < q))
  | .strval _ => .error "TypeError: ordering comparison between str and int"

/-- The cells of one site's wildtype row of `m` at line 82, in the frame's
column order: `site`, `wildtype`, `mutation` (which equals the wildtype on
these rows), `nsel`, `Nsel`, `nmock`, `Nmock`, `nerr`, `Nerr`, `epsilon`.
The second and third cells are string-valued. -/
def wtRowCells (alpha : List A) (j : ErrJoinedSite A) : List (CellVal A) :=
  [.num (j.site : ℚ), .strval j.wildtype, .strval j.wildtype,
    .num (j.nsel j.wildtype), .num (Ntot alpha j.nsel),
    .num (j.nmock j.wildtype), .num (Ntot alpha j.nmock),
    .num (j.nerr j.wildtype), .num (Ntot alpha j.nerr),
    .num (j.nerr j.wildtype / Ntot alpha j.nerr)]

/-- The comparison `m[wtmask] > 0` of line 82 on one site's wildtype row:
`m[wtmask]` keeps every column of the rows where `mutation == wildtype`,
and the comparison is evaluated cell-wise in column order — it dies with a
`TypeError` at the first string-valued column, before any boolean result
exists. -/
def wtRowGtZero (alpha : List A) (j : ErrJoinedSite A) :
    Except String (List Bool) :=
  (wtRowCells alpha j).mapM cellGtZero

/-- Line 82 as the entry gate of the error-correction branch
(lines 79–93): before the correction loop of lines 83–92 can run, the
assertion's comparison is evaluated; with the string columns present it
raises `TypeError` on every frame that has a wildtype row, whatever the
counts, so the branch never completes and no corrected table exists.
(Had the comparison produced a boolean frame, the builtin `all` iterates
the frame's column labels — non-empty strings, hence all truthy — so the
assertion still could not fail on count values.) -/
def errCorrectionStep (alpha : List A) (tbl : List (ErrJoinedSite A)) :
    Except String Unit :=
  (tbl.mapM (wtRowGtZero alpha)).map fun _ => ()

/-- C2 (code bug): the claimed error correction never happens.  On every
err-supplied call whose joined frame has at least one wildtype row — every
schema-valid input — the line-82 comparison raises `TypeError` at the
string columns before the correction loop of lines 83–92 runs, so no
corrected counts and no recomputed totals are ever produced. -/
theorem errCorrectionStep_always_fails (alpha : List A)
    (j : ErrJoinedSite A) (tbl : List (ErrJoinedSite A)) :
    errCorrectionStep alpha (j :: tbl)
      = .error "TypeError: ordering comparison between str and int" := rfl

/-- Concrete joined site whose error-control counts are all strictly
positive (9 at the wildtype `A`, 1 at `C`). -/
def errJoinPosC7 : ErrJoinedSite Char :=
  ⟨1, 'A', fun _ => 1, fun _ => 1, fun c => if c = 'A' then 9 else 1⟩

/-- Concrete joined site whose error-control count at the wildtype is
zero. -/
def errJoinZeroC7 : ErrJoinedSite Char :=
  ⟨1, 'A', fun _ => 1, fun _ => 1, fun c => if c = 'A' then 0 else 1⟩

/-- C7 (code bug): line 82 is value-independent.  The `TypeError` strikes
at the string columns whether the error-control counts at the wildtype are
all strictly positive (`errJoinPosC7`) or zero (`errJoinZeroC7`): the same
error is raised in both cases, so no degenerate-control check of the
counts ever takes place — neither direction of the claim holds of the
code. -/
theorem line82_typeerror_value_independent :
    0 < errJoinPosC7.nerr errJoinPosC7.wildtype ∧
      errJoinZeroC7.nerr errJoinZeroC7.wildtype = 0 ∧
      errCorrectionStep ['A', 'C'] [errJoinPosC7]
        = .error "TypeError: ordering comparison between str and int" ∧
      errCorrectionStep ['A', 'C'] [errJoinZeroC7]
        = .error "TypeError: ordering comparison between str and int" := by
  exact ⟨by decide, by decide, rfl, rfl⟩

/-- The four nucleotide characters.  Modelled from the spec: `diffsel.py`
imports the codon alphabet from the package root, which is not among the
sources at hand; the spec fixes it as the 64 triplet codons over the four
bases. -/
def BASES : List Char := ['A', 'C', 'G', 'T']

/-- Modelled from the spec: the 64 triplet codons (the `CODONS` constant
imported by `diffsel.py`), as triples of bases. -/
def CODONS : List (List Char) :=
  BASES.flatMap fun b1 => BASES.flatMap fun b2 => BASES.map fun b3 => [b1, b2, b3]

/-- Amino-acid-level count after the translation step (lines 99–103 of
`diffsel.py`): the `replace` maps every codon to its amino acid and the
`groupby(...).sum()` adds the counts of all codons at the site that
translate to the same amino acid. -/
def translatedCount {B : Type} [DecidableEq B] (codonToAA : List Char → B)
    (alpha : List (List Char)) (n : List Char → ℚ) (aa : B) : ℚ :=
  ((alpha.filter fun c => codonToAA c = aa).map n).sum

/-- The mutation keys of the translated frame at a site: the distinct
amino-acid translations of the codon alphabet (the groupby keys of
line 100 that vary within a site). -/
def translatedKeys {B : Type} [DecidableEq B] (codonToAA : List Char → B)
    (alpha : List (List Char)) : List B :=
  (alpha.map codonToAA).dedup

/-- Summing `if b0 = b then v else 0` over a duplicate-free list containing
`b0` yields `v`. -/
theorem sum_map_ite_eq {B : Type} [DecidableEq B] (b0 : B) (v : ℚ) :
    ∀ K : List B, K.Nodup → b0 ∈ K →
      (K.map fun b => if b0 = b then v else 0).sum = v := by
  intro K
  induction K with
  | nil => intro _ h; simp at h
  | cons k ks ih =>
    intro hnd hmem
    rw [List.map_cons, List.sum_cons]
    rcases List.mem_cons.mp hmem with h | h
    · subst h
      rw [if_pos rfl]
      have hz : (ks.map fun b => if b0 = b then v else 0).sum = 0 := by
        refine List.sum_eq_zero ?_
        intro y hy
        rcases List.mem_map.mp hy with ⟨b, hb, rfl⟩
        exact if_neg (fun hbb : b0 = b => (List.nodup_cons.mp hnd).1 (hbb ▸ hb))
      rw [hz, add_zero]
    · have hne : b0 ≠ k := fun hh => (List.nodup_cons.mp hnd).1 (hh ▸ h)
      rw [if_neg hne, zero_add]
      exact ih (List.nodup_cons.mp hnd).2 h

/-- Sums distribute over pointwise addition under a map. -/
theorem sum_map_add {B : Type} (K : List B) (g h : B → ℚ) :
    (K.map fun b => g b + h b).sum = (K.map g).sum + (K.map h).sum := by
  induction K with
  | nil => simp
  | cons k ks ih => simp [ih]; ring

/-- Grouping a list's values by the fibers of `f` over any duplicate-free
key list covering the image preserves the total sum. -/
theorem sum_fiber_aux {B : Type} [DecidableEq B] (f : List Char → B)
    (n : List Char → ℚ) (K : List B) (hK : K.Nodup) :
    ∀ l : List (List Char), (∀ x ∈ l, f x ∈ K) →
      (K.map fun b => ((l.filter fun c => f c = b).map n).sum).sum
        = (l.map n).sum := by
  intro l
  induction l with
  | nil => intro _; simp
  | cons x xs ih =>
    intro hmem
    have hx : f x ∈ K := hmem x (List.mem_cons_self x xs)
    have hxs : ∀ y ∈ xs, f y ∈ K := fun y hy =>
      hmem y (List.mem_cons_of_mem x hy)
    have hsplit :
        (K.map fun b => (((x :: xs).filter fun c => f c = b).map n).sum)
          = K.map fun b =>
              (if f x = b then n x else 0)
                + ((xs.filter fun c => f c = b).map n).sum := by
      refine List.map_congr_left fun b _ => ?_
      by_cases hfx : f x = b
      · simp [List.filter_cons, hfx]
      · simp [List.filter_cons, hfx]
    rw [hsplit, sum_map_add, sum_map_ite_eq (f x) (n x) K hK hx, ih hxs]
    simp

/-- C5: with the 64-codon alphabet, the translation step conserves each
sample's per-site total (the amino-acid-level counts at a site sum to the
codon-level counts), codons translating to the same amino acid have their
counts combined by summation, and the synonymous changes survive as the
row whose mutation equals the wildtype's amino acid. -/
theorem translate_conserves_counts {B : Type} [DecidableEq B]
    (codonToAA : List Char → B) (n : List Char → ℚ) (wt : List Char)
    (hwt : wt ∈ CODONS) :
    CODONS.length = 64 ∧
      ((translatedKeys codonToAA CODONS).map
          (translatedCount codonToAA CODONS n)).sum = (CODONS.map n).sum ∧
      codonToAA wt ∈ translatedKeys codonToAA CODONS ∧
      translatedCount codonToAA CODONS n (codonToAA wt)
        = ((CODONS.filter fun c => codonToAA c = codonToAA wt).map n).sum := by
  refine ⟨by decide, ?_, ?_, rfl⟩
  · exact sum_fiber_aux codonToAA n _ (List.nodup_dedup _) CODONS
      fun x hx => List.mem_dedup.mpr (List.mem_map_of_mem codonToAA hx)
  · exact List.mem_dedup.mpr (List.mem_map_of_mem codonToAA hwt)

/-- Witness for C5: the first-base projection as a two-letter reduction of
the codons, unit counts, wildtype codon `AAA`. -/
theorem translate_conserves_counts_witness :
    CODONS.length = 64 ∧
      ((translatedKeys (fun c => c.take 1) CODONS).map
          (translatedCount (fun c => c.take 1) CODONS fun _ => 1)).sum
        = (CODONS.map fun _ => (1 : ℚ)).sum ∧
      (fun c => c.take 1) ['A', 'A', 'A'] ∈
        translatedKeys (fun c => c.take 1) CODONS ∧
      translatedCount (fun c => c.take 1) CODONS (fun _ => 1)
          ((fun c => c.take 1) ['A', 'A', 'A'])
        = ((CODONS.filter fun c =>
              c.take 1 = (['A', 'A', 'A'] : List Char).take 1).map
            fun _ => (1 : ℚ)).sum :=
  translate_conserves_counts (fun c => c.take 1) (fun _ => 1) ['A', 'A', 'A']
    (by decide)

/-- Truth of an `Except` computation: `true` on `ok`, `false` on `error`
(an error carries no partial output). -/
def exceptOk {E B : Type} : Except E B → Bool
  | .ok _ => true
  | .error _ => false

/-- `sort_values('site')` (lines 49–50 of `diffsel.py`): sort the rows of a
wide table by site. -/
def sortBySite (l : List (CountRow A)) : List (CountRow A) :=
  List.insertionSort (fun r s => r.site ≤ s.site) l

/-- Input validation of `computeMutDiffSel` (lines 43–52): the positive
pseudocount assertion, then — after sorting both tables by site — the site
and wildtype alignment assertions.  The column-set assertions of lines
45–47 are structural here, since a `CountRow` carries exactly one count per
alphabet character.  `mincount` is accepted unchecked, exactly as in the
source, which never validates it. -/
def validate (sel mock : List (CountRow A)) (p : ℚ) : Except String Unit :=
  if ¬ 0 < p then .error "pseudocount not positive"
  else if ¬ ((sortBySite sel).map (fun r => r.site)
      = (sortBySite mock).map (fun r => r.site)) then
    .error "Inconsistent sites"
  else if ¬ ((sortBySite sel).map (fun r => r.wildtype)
      = (sortBySite mock).map (fun r => r.wildtype)) then
    .error "Inconsistent wildtype"
  else .ok ()

/-- One row of the returned mutation-level frame
(`site, wildtype, mutation, mutdiffsel`).  The row stores the computable
masked enrichment; the source's `mutdiffsel` column is `log2` of it
(line 122), applied pointwise by `MutOutRow.mutdiffsel`. -/
structure MutOutRow (A : Type) where
  site : ℤ
  wildtype : A
  mutation : A
  enrichment : Option ℚ

/-- The `mutdiffsel` value of an output row: `log2` of its masked
enrichment, `none` standing for `NaN`. -/
noncomputable def MutOutRow.mutdiffsel (r : MutOutRow A) : Option ℝ :=
  r.enrichment.map fun e => Real.logb 2 (e : ℝ)

/-- Table-level `computeMutDiffSel` without an error-control table
(lines 43–124 of `diffsel.py`): validation first, then the two sorted
tables are joined site by site and every alphabet character contributes one
output row, whose value is the per-site computation embedded by
`mutEnrichment`.  The model presumes the spec's schema invariant that each
row's wildtype character belongs to the alphabet. -/
def computeMutDiffSel (alpha : List A) (sel mock : List (CountRow A))
    (p mc : ℚ) : Except String (List (MutOutRow A)) :=
  match validate sel mock p with
  | .error e => .error e
  | .ok _ =>
      .ok (List.flatten (((sortBySite sel).zip (sortBySite mock)).map fun pr =>
        alpha.map fun c =>
          ⟨pr.1.site, pr.1.wildtype, c,
            mutEnrichment alpha ⟨pr.1.wildtype, pr.1.counts, pr.2.counts⟩
              p mc c⟩))

/-- If two row lists agree on their site sequences — without repetition —
and on their wildtype sequences, then rows sharing a site carry the same
wildtype. -/
theorem eq_wildtype_of_aligned :
    ∀ ss sm : List (CountRow A), (ss.map (fun r => r.site)).Nodup →
      ss.map (fun r => r.site) = sm.map (fun r => r.site) →
      ss.map (fun r => r.wildtype) = sm.map (fun r => r.wildtype) →
      ∀ r1 ∈ ss, ∀ r2 ∈ sm, r1.site = r2.site → r1.wildtype = r2.wildtype := by
  intro ss
  induction ss with
  | nil =>
    intro sm _ _ _ r1 h1
    simp at h1
  | cons a ss ih =>
    intro sm hnd hsite hwt r1 h1 r2 h2 hs
    cases sm with
    | nil => simp at h2
    | cons b sm =>
      simp only [List.map_cons, List.cons.injEq] at hsite hwt
      obtain ⟨hab_site, hsite2⟩ := hsite
      obtain ⟨hab_wt, hwt2⟩ := hwt
      rw [List.map_cons] at hnd
      have hnd2 := List.nodup_cons.mp hnd
      rcases List.mem_cons.mp h1 with rfl | h1t
      · rcases List.mem_cons.mp h2 with rfl | h2t
        · exact hab_wt
        · exact absurd (hsite2 ▸ List.mem_map.mpr ⟨r2, h2t, hs.symm⟩) hnd2.1
      · rcases List.mem_cons.mp h2 with rfl | h2t
        · exact absurd
            (List.mem_map.mpr ⟨r1, h1t, hs.trans hab_site.symm⟩) hnd2.1
        · exact ih sm hnd2.2 hsite2 hwt2 r1 h1t r2 h2t hs

/-- C8: if the two tables' site sequences differ after sorting, or some
shared site is assigned two different wildtypes, `computeMutDiffSel` fails
with the corresponding alignment assertion — before any numeric work, and
with no partial output. -/
theorem computeMutDiffSel_misaligned_error (alpha : List A)
    (sel mock : List (CountRow A)) {p : ℚ} (mc : ℚ) (hp : 0 < p)
    (hnd : (sel.map (fun r => r.site)).Nodup)
    (hmis : (sortBySite sel).map (fun r => r.site)
        ≠ (sortBySite mock).map (fun r => r.site)
      ∨ ∃ r1 ∈ sel, ∃ r2 ∈ mock,
          r1.site = r2.site ∧ r1.wildtype ≠ r2.wildtype) :
    computeMutDiffSel alpha sel mock p mc = .error "Inconsistent sites" ∨
      computeMutDiffSel alpha sel mock p mc = .error "Inconsistent wildtype" := by
  unfold computeMutDiffSel validate
  rw [if_neg (not_not_intro hp)]
  by_cases hs : (sortBySite sel).map (fun r => r.site)
      = (sortBySite mock).map (fun r => r.site)
  · rw [if_neg (not_not_intro hs)]
    rcases hmis with h | ⟨r1, hr1, r2, hr2, hsite, hwt⟩
    · exact absurd hs h
    · have hndss : ((sortBySite sel).map (fun r => r.site)).Nodup := by
        refine (List.Perm.nodup_iff ?_).mpr hnd
        exact (List.perm_insertionSort _ sel).map _
      have hne : (sortBySite sel).map (fun r => r.wildtype)
          ≠ (sortBySite mock).map (fun r => r.wildtype) := fun hw =>
        hwt (eq_wildtype_of_aligned _ _ hndss hs hw r1
          ((List.perm_insertionSort _ sel).mem_iff.mpr hr1) r2
          ((List.perm_insertionSort _ mock).mem_iff.mpr hr2) hsite)
      rw [if_pos hne]
      exact Or.inr rfl
  · rw [if_pos hs]
    exact Or.inl rfl

/-- Selected table of the C8 witness, sites `[1, 2, 3]`. -/
def selC8 : List (CountRow Char) :=
  [⟨1, 'A', fun _ => 1⟩, ⟨2, 'A', fun _ => 1⟩, ⟨3, 'A', fun _ => 1⟩]

/-- Mock table of the C8 witness, sites `[1, 2, 4]`. -/
def mockC8 : List (CountRow Char) :=
  [⟨1, 'A', fun _ => 1⟩, ⟨2, 'A', fun _ => 1⟩, ⟨4, 'A', fun _ => 1⟩]

/-- Witness for C8: sites `[1, 2, 3]` against `[1, 2, 4]` abort with an
alignment error. -/
theorem computeMutDiffSel_misaligned_error_witness :
    computeMutDiffSel ['A', 'C'] selC8 mockC8 1 0 = .error "Inconsistent sites"
      ∨ computeMutDiffSel ['A', 'C'] selC8 mockC8 1 0
          = .error "Inconsistent wildtype" := by
  refine computeMutDiffSel_misaligned_error ['A', 'C'] selC8 mockC8 0
    (by norm_num) (by decide) (Or.inl (by decide))

/-- Valid one-site table used to exercise the `mincount` behaviour. -/
def tblC9 : List (CountRow Char) := [⟨1, 'A', fun _ => 1⟩]

/-- Counterexample to C9 as stated: calling `computeMutDiffSel` with the
negative `mincount = -1` on a valid input does not fail fast — unlike a
non-positive pseudocount, `mincount` is never validated and the call
returns a table. -/
theorem computeMutDiffSel_accepts_negative_mincount :
    exceptOk (computeMutDiffSel ['A', 'C'] tblC9 tblC9 1 (-1)) = true := by
  rfl

/-- With non-negative counts and a non-positive `mincount`, the mask
degenerates to the wildtype condition alone. -/
theorem masked_iff_eq_wildtype {s : SiteCounts A K} {mc : K} {c : A}
    (hn : 0 ≤ s.nsel c) (hmc : mc ≤ 0) : masked s mc c ↔ c = s.wildtype := by
  unfold masked
  rw [or_iff_left]
  rintro ⟨h1, _⟩
  exact absurd h1 (not_lt.mpr (hmc.trans hn))

/-- A non-positive `mincount` yields the same masked enrichment as
`mincount = 0` when the selected count is non-negative. -/
theorem mutEnrichment_mincount_nonpos {alpha : List A} {s : SiteCounts A K}
    {p : K} {mc : K} {c : A} (hn : 0 ≤ s.nsel c) (hmc : mc ≤ 0) :
    mutEnrichment alpha s p mc c = mutEnrichment alpha s p 0 c := by
  unfold mutEnrichment
  rw [if_congr ((masked_iff_eq_wildtype hn hmc).trans
    (masked_iff_eq_wildtype hn le_rfl).symm) rfl rfl]

/-- C9 amended: a negative `mincount` is not rejected; the call proceeds
and — because all counts are non-negative — produces exactly the output of
`mincount = 0` (only the wildtype rows are masked), with no error raised. -/
theorem computeMutDiffSel_neg_mincount_behaves_as_zero (alpha : List A)
    (sel mock : List (CountRow A)) (p : ℚ) {mc : ℚ} (hmc : mc < 0)
    (hsel : ∀ r ∈ sel, ∀ a, 0 ≤ r.counts a) :
    computeMutDiffSel alpha sel mock p mc
      = computeMutDiffSel alpha sel mock p 0 := by
  unfold computeMutDiffSel
  cases hv : validate sel mock p with
  | error e => rfl
  | ok u =>
    refine congrArg Except.ok
      (congrArg List.flatten (List.map_congr_left fun pr hpr => ?_))
    refine List.map_congr_left fun c hc => ?_
    have hmem : pr.1 ∈ sel :=
      (List.perm_insertionSort _ sel).mem_iff.mp (List.of_mem_zip hpr).1
    exact congrArg (MutOutRow.mk pr.1.site pr.1.wildtype c)
      (mutEnrichment_mincount_nonpos (hsel pr.1 hmem c) hmc.le)

/-- Witness for the amended C9 on the valid one-site table. -/
theorem computeMutDiffSel_neg_mincount_behaves_as_zero_witness :
    computeMutDiffSel ['A', 'C'] tblC9 tblC9 1 (-1)
      = computeMutDiffSel ['A', 'C'] tblC9 tblC9 1 0 := by
  refine computeMutDiffSel_neg_mincount_behaves_as_zero ['A', 'C'] tblC9 tblC9
    1 (by norm_num) ?_
  intro r hr a
  simp only [tblC9, List.mem_singleton] at hr
  subst hr
  norm_num

/-- One row of the mutation-level frame consumed by `mutToSiteDiffSel`
(`site`, `wildtype`, `mutation`, `mutdiffsel`); `none` is the `NaN`
sentinel. -/
structure MutDiffRow (A : Type) where
  site : ℤ
  wildtype : A
  mutation : A
  mutdiffsel : Option ℚ
deriving DecidableEq

/-- The mutation columns of the pivoted frame (line 174 of `diffsel.py`):
the distinct mutation characters of the input.  Pandas presents pivot
columns sorted by value; no property below depends on the column order, so
first-occurrence order is used. -/
def pivotColumns (rows : List (MutDiffRow A)) : List A :=
  (rows.map (fun r => r.mutation)).dedup

/-- The pivot index (line 174): the distinct sites, one output row each. -/
def pivotSites (rows : List (MutDiffRow A)) : List ℤ :=
  (rows.map (fun r => r.site)).dedup

/-- One cell of the pivoted frame after `fillna(0)` (lines 174–175): a
`NaN` value, and a (site, mutation) pair absent from the input, both
become 0. -/
def pivotVal (rows : List (MutDiffRow A)) (s : ℤ) (mu : A) : ℚ :=
  match rows.find? (fun r => r.site = s ∧ r.mutation = mu) with
  | some r => r.mutdiffsel.getD 0
  | none => 0

/-- The zero-filled values of one pivot row across the mutation columns. -/
def siteVals (rows : List (MutDiffRow A)) (s : ℤ) : List ℚ :=
  (pivotColumns rows).map (pivotVal rows s)

/-- Output row of `mutToSiteDiffSel` (the five site statistics of
lines 176–184). -/
structure SiteDiffRow where
  site : ℤ
  abs_diffsel : ℚ
  positive_diffsel : ℚ
  negative_diffsel : ℚ
  max_diffsel : ℚ
  min_diffsel : ℚ
deriving DecidableEq

/-- Maximum of a list of rationals (`x.max(axis=1)` over the pivoted
mutation columns); the empty case cannot arise for a site present in the
input. -/
def listMax : List ℚ → ℚ
  | [] => 0
  | x :: xs => xs.foldl max x

/-- Minimum of a list of rationals (`x.min(axis=1)`). -/
def listMin : List ℚ → ℚ
  | [] => 0
  | x :: xs => xs.foldl min x

/-- The site statistics of one pivot row (lines 176–181): sum of absolute
values, sum of the entries `≥ 0`, sum of the entries `≤ 0` (an exact zero
is counted in both sums), maximum and minimum.  All five are computed from
the pivoted, zero-filled mutation columns, matching the function's
doctest. -/
def siteRow (rows : List (MutDiffRow A)) (s : ℤ) : SiteDiffRow :=
  let vals := siteVals rows s
  ⟨s, (vals.map (fun v => |v|)).sum,
    (vals.filter (fun v => 0 ≤ v)).sum,
    (vals.filter (fun v => v ≤ 0)).sum,
    listMax vals, listMin vals⟩

/-- `mutToSiteDiffSel` (lines 173–186): the `pivot` of line 174 raises on a
duplicated (site, mutation) pair — modelled as the error branch — and
otherwise the result has one row of site statistics per distinct site. -/
def mutToSiteDiffSel (rows : List (MutDiffRow A)) :
    Except String (List SiteDiffRow) :=
  if (rows.map fun r => (r.site, r.mutation)).Nodup then
    .ok ((pivotSites rows).map (siteRow rows))
  else .error "Index contains duplicate entries, cannot reshape"

/-- Splitting a sum of absolute values into the sum of the non-negative
entries minus the sum of the non-positive entries. -/
theorem sum_abs_eq_filter_sub_filter (vals : List ℚ) :
    (vals.map (fun v => |v|)).sum
      = (vals.filter (fun v => 0 ≤ v)).sum
        - (vals.filter (fun v => v ≤ 0)).sum := by
  induction vals with
  | nil => simp
  | cons v vs ih =>
    rw [List.map_cons, List.sum_cons, ih]
    rcases le_or_lt 0 v with h1 | h1
    · rcases le_or_lt v 0 with h2 | h2
      · have hv0 : v = 0 := le_antisymm h2 h1
        subst hv0
        simp [List.filter_cons]
      · simp [List.filter_cons, h1, h2.not_le, abs_of_nonneg h1]
        ring
    · simp [List.filter_cons, h1.not_le, h1.le, abs_of_neg h1]
      ring

/-- C6: every output row of `mutToSiteDiffSel` satisfies
`abs_diffsel = positive_diffsel - negative_diffsel`, the entries equal to
zero being counted in both sums after `NaN` values are zero-filled. -/
theorem abs_diffsel_eq_pos_sub_neg (rows : List (MutDiffRow A))
    (out : List SiteDiffRow) (hout : mutToSiteDiffSel rows = .ok out) :
    ∀ r ∈ out, r.abs_diffsel = r.positive_diffsel - r.negative_diffsel := by
  intro r hr
  unfold mutToSiteDiffSel at hout
  by_cases h : (rows.map fun r => (r.site, r.mutation)).Nodup
  · rw [if_pos h] at hout
    injection hout with hout
    subst hout
    rcases List.mem_map.mp hr with ⟨s, hs, rfl⟩
    exact sum_abs_eq_filter_sub_filter (siteVals rows s)
  · rw [if_neg h] at hout
    exact absurd hout (by simp)

/-- The doctest's mutation-level frame: sites 1 and 2 with wildtypes `A`
and `C`, `NaN` at each wildtype, and values
`(A, C, G, T) = (NaN, -0.2, 3.2, -0.2)` and `(4.1, NaN, 0.1, 0.0)`. -/
def rowsC6 : List (MutDiffRow Char) :=
  [⟨1, 'A', 'A', none⟩, ⟨2, 'C', 'A', some (41 / 10)⟩,
    ⟨1, 'A', 'C', some (-1 / 5)⟩, ⟨2, 'C', 'C', none⟩,
    ⟨1, 'A', 'G', some (16 / 5)⟩, ⟨2, 'C', 'G', some (1 / 10)⟩,
    ⟨1, 'A', 'T', some (-1 / 5)⟩, ⟨2, 'C', 'T', some 0⟩]

/-- Witness for C6 on the doctest frame, at the site-1 output row. -/
theorem abs_diffsel_eq_pos_sub_neg_witness :
    (siteRow rowsC6 1).abs_diffsel
      = (siteRow rowsC6 1).positive_diffsel
        - (siteRow rowsC6 1).negative_diffsel := by
  refine abs_diffsel_eq_pos_sub_neg rowsC6
    ((pivotSites rowsC6).map (siteRow rowsC6)) ?_ (siteRow rowsC6 1) ?_
  · rfl
  · exact List.mem_map.mpr ⟨1, by decide, rfl⟩

/-- C10: `mutToSiteDiffSel` succeeds exactly on inputs whose
(site, mutation) pairs are pairwise distinct; an input with two rows
sharing a site and a mutation character makes the pivot fail, rather than
aggregating or dropping the duplicate. -/
theorem mutToSiteDiffSel_ok_iff_unique_keys (rows : List (MutDiffRow A)) :
    exceptOk (mutToSiteDiffSel rows) = true
      ↔ (rows.map fun r => (r.site, r.mutation)).Nodup := by
  unfold mutToSiteDiffSel
  by_cases h : (rows.map fun r => (r.site, r.mutation)).Nodup
  · rw [if_pos h]
    simpa [exceptOk] using h
  · rw [if_neg h]
    simpa [exceptOk] using h

end Diffsel
